import Mathlib

/-!
# Verification of the Rhode Island school-consolidation estimator

Shallow embedding of the algorithmic core of the repository:

* the district-name normalizer and keying (`src/unnamed/part_009`,
  `src/frontend/src/lib/enrollment.ts`),
* the haversine distance (`src/frontend/src/lib/geoDistance.ts`),
* the consolidation estimator `computeConsolidationV1` (`src/unnamed/part_006`).

JavaScript numbers are modelled as real numbers (`ℝ`), missing map entries as
`Option`, JS objects as structures.  String processing is modelled over
`List Char` with ASCII semantics (the data the program handles is ASCII).
-/

namespace RISchool

/-! ## Character classes used by the normalizer's regular expressions -/

/-- Model of the JS `\s` character class restricted to the ASCII whitespace
characters that the repository's data can contain. -/
def isJsSpace (c : Char) : Bool :=
  c = ' ' || c = '\t' || c = '\n' || c = '\r' || c = '\u000b' || c = '\u000c'

/-- Model of the JS `\w` character class: `[A-Za-z0-9_]`. -/
def isWordChar (c : Char) : Bool :=
  ('A' ≤ c && c ≤ 'Z') || ('a' ≤ c && c ≤ 'z') || ('0' ≤ c && c ≤ '9') || c = '_'

/-- Model of `String.prototype.toLowerCase` on a single ASCII character. -/
def jsToLowerChar (c : Char) : Char :=
  if 'A' ≤ c ∧ c ≤ 'Z' then Char.ofNat (c.toNat + 32) else c

/-- A dash character as matched by the regex `/[-–—]/`. -/
def isDash (c : Char) : Bool :=
  c = '-' || c = '–' || c = '—'

/-! ## The normalization pipeline over `List Char`

Each stage models one chained `replace`/`trim` call of
`normalizeDistrictName` (`src/unnamed/part_009`), which is textually identical
to `normalizeForKey` (`src/frontend/src/lib/enrollment.ts`). -/

/-- Model of `String.prototype.trim` (both ends). -/
def trimL (l : List Char) : List Char :=
  (((l.dropWhile isJsSpace).reverse.dropWhile isJsSpace)).reverse

/-- Try to match the regex `\s*&\s*` at the start of `l`; on success return
the remainder of the input after the match. -/
def matchAmp (l : List Char) : Option (List Char) :=
  match l.dropWhile isJsSpace with
  | '&' :: rest => some (rest.dropWhile isJsSpace)
  | _ => none

/-- Global replacement of `\s*&\s*` by `" and "`, scanning left to right.
The fuel argument bounds the recursion; the input length always suffices
because every match consumes at least the ampersand. -/
def replaceAmpAux : Nat → List Char → List Char
  | _, [] => []
  | 0, l => l
  | fuel + 1, c :: cs =>
    match matchAmp (c :: cs) with
    | some rest => ' ' :: 'a' :: 'n' :: 'd' :: ' ' :: replaceAmpAux fuel rest
    | none => c :: replaceAmpAux fuel cs

/-- Model of `.replace(/\s*&\s*/g, ' and ')`. -/
def replaceAmp (l : List Char) : List Char := replaceAmpAux l.length l

/-- Try to match the regex `\s*\([^)]*\)\s*` at the start of `l`; on success
return the remainder after the match. -/
def matchParen (l : List Char) : Option (List Char) :=
  match l.dropWhile isJsSpace with
  | '(' :: rest =>
    match rest.dropWhile (fun c => c ≠ ')') with
    | ')' :: rest2 => some (rest2.dropWhile isJsSpace)
    | _ => none
  | _ => none

/-- Global replacement of `\s*\([^)]*\)\s*` by a single space. -/
def parenRemoveAux : Nat → List Char → List Char
  | _, [] => []
  | 0, l => l
  | fuel + 1, c :: cs =>
    match matchParen (c :: cs) with
    | some rest => ' ' :: parenRemoveAux fuel rest
    | none => c :: parenRemoveAux fuel cs

/-- Model of `.replace(/\s*\([^)]*\)\s*/g, ' ')`. -/
def parenRemove (l : List Char) : List Char := parenRemoveAux l.length l

/-- Model of `.replace(/\s+/g, ' ')`: collapse every whitespace run to one
space.  The flag records whether the previous character was whitespace. -/
def collapseWsAux : Bool → List Char → List Char
  | _, [] => []
  | prevSpace, c :: cs =>
    if isJsSpace c then
      if prevSpace then collapseWsAux true cs
      else ' ' :: collapseWsAux true cs
    else c :: collapseWsAux false cs

/-- Model of `.replace(/\s+/g, ' ')`. -/
def collapseWs (l : List Char) : List Char := collapseWsAux false l

/-- Stages 1–8 of `normalizeDistrictName`: lower-case, trim, `&`→`and`,
dashes→space, strip punctuation, drop parenthesized asides, collapse
whitespace, trim. -/
def normCore (l : List Char) : List Char :=
  trimL (collapseWs (parenRemove
    (((replaceAmp (trimL (l.map jsToLowerChar))).map
        (fun c => if isDash c then ' ' else c)).filter
      (fun c => isWordChar c || isJsSpace c))))

/-- The district-type suffixes stripped by `normalizeDistrictName`
(first match wins, at most one is removed). -/
def SUFFIXES : List (List Char) :=
  [" regional school district".toList, " school district".toList,
   " public schools".toList]

/-- The grade-level suffixes stripped by `normalizeDistrictName`. -/
def LEVEL_SUFFIXES : List (List Char) :=
  [" elementary".toList, " secondary".toList]

/-- Strip the first suffix of `sufs` that `t` ends with (then trim),
modelling the `for (const suf of suffixes) { ... break; }` loops. -/
def stripFirstSuffix (sufs : List (List Char)) (t : List Char) : List Char :=
  match sufs with
  | [] => t
  | suf :: rest =>
    if suf.isSuffixOf t then trimL (t.take (t.length - suf.length))
    else stripFirstSuffix rest t

/-- The full normalization over `List Char`. -/
def normList (l : List Char) : List Char :=
  stripFirstSuffix LEVEL_SUFFIXES (stripFirstSuffix SUFFIXES (normCore l))

/-- `normalizeDistrictName` from `src/unnamed/part_009`.  The JS guard
`if (!s || typeof s !== 'string') return ''` reduces to the empty-string
test in this typed model. -/
def normalizeDistrictName (s : String) : String :=
  if s = "" then "" else String.mk (normList s.toList)

/-- `normalizeForKey` from `src/frontend/src/lib/enrollment.ts`; its body is
textually identical to `normalizeDistrictName`. -/
def normalizeForKey (s : String) : String :=
  if s = "" then "" else String.mk (normList s.toList)

/-- The alias table `DISTRICT_ALIASES` of `src/unnamed/part_009`. -/
def DISTRICT_ALIASES (k : String) : Option String :=
  if k = "bistol warren regional district" then some "bristol warren" else none

/-- `districtKey` from `src/unnamed/part_009`. -/
def districtKey (name : String) : String :=
  let k := normalizeDistrictName name
  (DISTRICT_ALIASES k).getD k

namespace Enrollment

/-- The alias table `DISTRICT_ALIASES` of
`src/frontend/src/lib/enrollment.ts` — it is empty. -/
def DISTRICT_ALIASES (_k : String) : Option String := none

/-- `districtKey` from `src/frontend/src/lib/enrollment.ts`. -/
def districtKey (name : String) : String :=
  let k := normalizeForKey name
  (DISTRICT_ALIASES k).getD k

end Enrollment

/-! ## Geodesic distance (`src/frontend/src/lib/geoDistance.ts`) -/

/-- A WGS84 point as passed to `milesBetween`. -/
structure GeoPoint where
  lat : ℝ
  lon : ℝ

/-- `EARTH_RADIUS_MILES` from `geoDistance.ts`. -/
def EARTH_RADIUS_MILES : ℝ := 3958.8

/-- The local `toRad` helper of `milesBetween`. -/
noncomputable def toRad (deg : ℝ) : ℝ := deg * Real.pi / 180

/-- `milesBetween` from `src/frontend/src/lib/geoDistance.ts`: haversine
distance in statute miles. -/
noncomputable def milesBetween (a b : GeoPoint) : ℝ :=
  let dLat := toRad (b.lat - a.lat)
  let dLon := toRad (b.lon - a.lon)
  let sinHalfDLat := Real.sin (dLat / 2)
  let sinHalfDLon := Real.sin (dLon / 2)
  let h := sinHalfDLat * sinHalfDLat +
    Real.cos (toRad a.lat) * Real.cos (toRad b.lat) * sinHalfDLon * sinHalfDLon
  2 * EARTH_RADIUS_MILES * Real.arcsin (Real.sqrt h)

/-! ## Data model of the three joined datasets

Fields are as in `src/frontend/src/lib/budgets.ts`,
`src/frontend/src/lib/enrollment.ts` and `src/unnamed/part_007`; JS `number`
is `ℝ`, `T | null` and optional fields are `Option`, and a
`Record<string, T>` is an `Option`-valued function on keys. -/

/-- `BudgetComponents` from `budgets.ts`. -/
structure BudgetComponents where
  districtManagement : ℝ
  programOperationsManagement : ℝ

/-- `DistrictBudget` from `budgets.ts`. -/
structure DistrictBudget where
  displayName : String
  sourceFile : String
  fiscalYear : String
  totalExpenditures : ℝ
  centralAdministration : ℝ
  centralAdministrationModel : ℝ
  adminShareOfTotal : Option ℝ
  adminShareOfTotalModel : Option ℝ
  components : BudgetComponents
  componentsModel : BudgetComponents
  flags : List String

/-- `Demographics` from `enrollment.ts`. -/
structure Demographics where
  NATIVE : Option ℝ := none
  ASIAN : Option ℝ := none
  BLACK : Option ℝ := none
  HISPANIC : Option ℝ := none
  MULTIRACE : Option ℝ := none
  PACIFICISLANDER : Option ℝ := none
  WHITE : Option ℝ := none
  FEMALE : Option ℝ := none
  MALE : Option ℝ := none
  OTHER : Option ℝ := none

/-- `DistrictEnrollment` from `enrollment.ts`. -/
structure DistrictEnrollment where
  distcode : String
  distname : String
  total : ℝ
  elem_enrollment : Option ℝ := none
  sec_enrollment : Option ℝ := none
  FRL : Option ℝ := none
  LEP : Option ℝ := none
  IEP : Option ℝ := none
  VOCED : Option ℝ := none
  demographics : Option Demographics := none
  grades : Option (List (String × ℝ)) := none

/-- `AnchorSchool` from `src/unnamed/part_007`. -/
structure AnchorSchool where
  name : String
  ncesId : String
  enrollment : Option ℝ
  gradeLow : Option ℝ
  gradeHigh : Option ℝ
  gradeBucket : String
  districtGeoid : String
  districtName : String

/-- `DistrictAnchor` from `src/unnamed/part_007`. -/
structure DistrictAnchor where
  displayName : String
  lat : ℝ
  lon : ℝ
  anchorType : String
  anchorSchool : Option AnchorSchool := none
  flags : List String := []

/-- `BudgetsMap`. -/
def BudgetsMap : Type := String → Option DistrictBudget

/-- `LeaEnrollmentMap`. -/
def LeaEnrollmentMap : Type := String → Option DistrictEnrollment

/-- `DistrictAnchorsMap`. -/
def DistrictAnchorsMap : Type := String → Option DistrictAnchor

/-! ## The consolidation estimator (`src/unnamed/part_006`) -/

/-- `ConsolidationParamsV1`. -/
structure ConsolidationParamsV1 where
  adminReductionRate : ℝ
  costPerStudentMile : ℝ
  affectedShare : ℝ

/-- `SpokeDetail`. -/
structure SpokeDetail where
  key : String
  name : String
  enrollment : ℝ
  distanceMiles : ℝ
  cost : ℝ

/-- The `missing` sub-record of `ConsolidationResultV1`. -/
structure MissingLists where
  budgets : List String
  enrollment : List String
  anchors : List String
deriving DecidableEq

/-- `ConsolidationResultV1`. -/
structure ConsolidationResultV1 where
  hubKey : String
  hubName : String
  combinedEnrollment : ℝ
  combinedSpending : ℝ
  hubSpending : ℝ
  spokesSpending : ℝ
  baselinePerPupil : ℝ
  adminBaselineHub : ℝ
  adminBaselineSpokes : ℝ
  adminSavings : ℝ
  transportationIncrease : ℝ
  netImpact : ℝ
  projectedSpending : ℝ
  projectedPerPupil : ℝ
  adminSavingsPctCombined : ℝ
  transportIncreasePctCombined : ℝ
  netImpactPctCombined : ℝ
  adminSavingsPctSpokesSpending : ℝ
  transportIncreasePctSpokesSpending : ℝ
  netImpactPctSpokesSpending : ℝ
  spokeBreakdown : List SpokeDetail
  warnings : List String
  missing : MissingLists
  ok : Bool

/-- The `clamp` helper of `src/unnamed/part_006`:
`Math.max(lo, Math.min(hi, v))`. -/
noncomputable def clamp (v lo hi : ℝ) : ℝ := max lo (min hi v)

/-- The `empty` result template built inside `computeConsolidationV1`. -/
def emptyResult : ConsolidationResultV1 where
  hubKey := ""
  hubName := ""
  combinedEnrollment := 0
  combinedSpending := 0
  hubSpending := 0
  spokesSpending := 0
  baselinePerPupil := 0
  adminBaselineHub := 0
  adminBaselineSpokes := 0
  adminSavings := 0
  transportationIncrease := 0
  netImpact := 0
  projectedSpending := 0
  projectedPerPupil := 0
  adminSavingsPctCombined := 0
  transportIncreasePctCombined := 0
  netImpactPctCombined := 0
  adminSavingsPctSpokesSpending := 0
  transportIncreasePctSpokesSpending := 0
  netImpactPctSpokesSpending := 0
  spokeBreakdown := []
  warnings := []
  missing := { budgets := [], enrollment := [], anchors := [] }
  ok := false

/-- `[...new Set(selectedKeys)]`: order-preserving deduplication keeping the
first occurrence of each key. -/
def orderedDedup (xs : List String) : List String :=
  xs.foldl (fun acc k => if k ∈ acc then acc else acc ++ [k]) []

/-- The enrollment record of a key, defaulting `total` to `0` when absent
(the estimator only reads `total` of keys it has checked are present). -/
def etotal (enrollments : LeaEnrollmentMap) (k : String) : ℝ :=
  match enrollments k with
  | some e => e.total
  | none => 0

/-- `totalExpenditures` of a key's budget record, defaulting to `0`. -/
def bspend (budgets : BudgetsMap) (k : String) : ℝ :=
  match budgets k with
  | some b => b.totalExpenditures
  | none => 0

/-- `centralAdministrationModel` of a key's budget record, defaulting to
`0`. -/
def badmin (budgets : BudgetsMap) (k : String) : ℝ :=
  match budgets k with
  | some b => b.centralAdministrationModel
  | none => 0

/-- A default anchor record used to total the partial `anchors[k]` lookups
of the main branch (only reached for keys present in the map). -/
def defaultAnchor : DistrictAnchor where
  displayName := ""
  lat := 0
  lon := 0
  anchorType := ""

/-- The anchor record of a key (totalized). -/
def aget (anchors : DistrictAnchorsMap) (k : String) : DistrictAnchor :=
  (anchors k).getD defaultAnchor

/-- The check `!e || !e.total || e.total <= 0` of the missing-enrollment
loop: the key has no enrollment record with positive total. -/
noncomputable def enrollmentMissing (enrollments : LeaEnrollmentMap) (k : String) : Bool :=
  match enrollments k with
  | some e => if e.total ≤ 0 then true else false
  | none => true

/-- The data-quality warnings pushed in the presence-checking loop:
one `"<displayName>: <flag>"` entry per flag of each present budget
record, in selection order. -/
def budgetFlagWarnings (budgets : BudgetsMap) (unique : List String) : List String :=
  unique.flatMap fun k =>
    match budgets k with
    | some b => b.flags.map fun f => b.displayName ++ ": " ++ f
    | none => []

/-- The anchor point of a key as passed to `milesBetween`. -/
def anchorPoint (anchors : DistrictAnchorsMap) (k : String) : GeoPoint :=
  { lat := (aget anchors k).lat, lon := (aget anchors k).lon }

/-- The hub-selection loop: start from `(unique[0], 0)` and replace the
candidate whenever a strictly larger enrollment total is seen. -/
noncomputable def hubKeyOf (enrollments : LeaEnrollmentMap) (unique : List String) : String :=
  (unique.foldl
    (fun st k => if st.2 < etotal enrollments k then (k, etotal enrollments k) else st)
    (unique.headD "", 0)).1

/-- Distance from spoke `k`'s anchor to the hub's anchor. -/
noncomputable def spokeDistance (anchors : DistrictAnchorsMap) (hubKey k : String) : ℝ :=
  milesBetween (anchorPoint anchors k) (anchorPoint anchors hubKey)

/-- `Math.round` (ties toward `+∞`), as a real-valued function. -/
noncomputable def jsRound (x : ℝ) : ℝ := (round x : ℤ)

/-- The unrounded per-spoke transportation cost
`dist * enr * share * cpsm`. -/
noncomputable def spokeCost (anchors : DistrictAnchorsMap) (enrollments : LeaEnrollmentMap)
    (hubKey : String) (share cpsm : ℝ) (k : String) : ℝ :=
  spokeDistance anchors hubKey k * etotal enrollments k * share * cpsm

/-- The breakdown entry pushed for spoke `k` (distance rounded to one
decimal, cost rounded to a whole dollar). -/
noncomputable def spokeDetail (anchors : DistrictAnchorsMap) (enrollments : LeaEnrollmentMap)
    (hubKey : String) (share cpsm : ℝ) (k : String) : SpokeDetail where
  key := k
  name := (aget anchors k).displayName
  enrollment := etotal enrollments k
  distanceMiles := jsRound (spokeDistance anchors hubKey k * 10) / 10
  cost := jsRound (spokeCost anchors enrollments hubKey share cpsm k)

/-- Model of `dist.toFixed(1)`: decimal rendering of the distance rounded
to one decimal place (integer part, point, one digit). -/
noncomputable def toFixed1 (x : ℝ) : String :=
  toString (round x / 10 : ℤ) ++ "." ++ toString (round x % 10 : ℤ)

/-- The `distance … seems high` warnings pushed while walking the spokes. -/
noncomputable def distanceWarnings (anchors : DistrictAnchorsMap) (hubKey : String)
    (spokes : List String) : List String :=
  spokes.filterMap fun k =>
    if 60 < spokeDistance anchors hubKey k then
      some ((aget anchors k).displayName ++ ": distance " ++
        toFixed1 (spokeDistance anchors hubKey k * 10) ++ " mi seems high")
    else none

/-- `(den > 0 ? num / den : 0)`. -/
noncomputable def safePct (num den : ℝ) : ℝ := if 0 < den then num / den else 0

/-- The fully-populated `ok: true` result computed once both guards have
passed, with `warnings0` the flag warnings accumulated earlier. -/
noncomputable def mainResult (unique : List String) (budgets : BudgetsMap)
    (enrollments : LeaEnrollmentMap) (anchors : DistrictAnchorsMap)
    (warnings0 : List String) (rate cpsm share : ℝ) : ConsolidationResultV1 :=
  let hubKey := hubKeyOf enrollments unique
  let combinedEnrollment := (unique.map (etotal enrollments)).sum
  let combinedSpending := (unique.map (bspend budgets)).sum
  let spokes := unique.filter fun k => k ≠ hubKey
  let adminBaselineSpokes := (spokes.map (badmin budgets)).sum
  let adminSavings := rate * adminBaselineSpokes
  let transportationIncrease := (spokes.map (spokeCost anchors enrollments hubKey share cpsm)).sum
  let netImpact := adminSavings - transportationIncrease
  let projectedSpending := combinedSpending - netImpact
  let hubSpending := bspend budgets hubKey
  let spokesSpending := combinedSpending - hubSpending
  { hubKey := hubKey
    hubName := (aget anchors hubKey).displayName
    combinedEnrollment := combinedEnrollment
    combinedSpending := combinedSpending
    hubSpending := hubSpending
    spokesSpending := spokesSpending
    baselinePerPupil := if 0 < combinedEnrollment then combinedSpending / combinedEnrollment else 0
    adminBaselineHub := badmin budgets hubKey
    adminBaselineSpokes := adminBaselineSpokes
    adminSavings := adminSavings
    transportationIncrease := transportationIncrease
    netImpact := netImpact
    projectedSpending := projectedSpending
    projectedPerPupil := if 0 < combinedEnrollment then projectedSpending / combinedEnrollment else 0
    adminSavingsPctCombined := safePct adminSavings combinedSpending
    transportIncreasePctCombined := safePct transportationIncrease combinedSpending
    netImpactPctCombined := safePct netImpact combinedSpending
    adminSavingsPctSpokesSpending := safePct adminSavings spokesSpending
    transportIncreasePctSpokesSpending := safePct transportationIncrease spokesSpending
    netImpactPctSpokesSpending := safePct netImpact spokesSpending
    spokeBreakdown :=
      List.insertionSort (fun x y => y.cost ≤ x.cost)
        (spokes.map (spokeDetail anchors enrollments hubKey share cpsm))
    warnings := warnings0 ++ distanceWarnings anchors hubKey spokes
    missing := { budgets := [], enrollment := [], anchors := [] }
    ok := true }

/-- `computeConsolidationV1` after the parameter clamping: deduplicate,
guard the selection size, collect missing keys and flag warnings, then
either short-circuit or compute the full result. -/
noncomputable def computeCore (selectedKeys : List String) (budgets : BudgetsMap)
    (enrollments : LeaEnrollmentMap) (anchors : DistrictAnchorsMap)
    (rate cpsm share : ℝ) : ConsolidationResultV1 :=
  let unique := orderedDedup selectedKeys
  let missingBudgets := unique.filter fun k => (budgets k).isNone
  let missingEnrollment := unique.filter fun k => enrollmentMissing enrollments k
  let missingAnchors := unique.filter fun k => (anchors k).isNone
  let warnings := budgetFlagWarnings budgets unique
  if unique.length < 2 then
    { emptyResult with warnings := ["Select at least 2 districts"] }
  else if missingBudgets ≠ [] ∨ missingEnrollment ≠ [] ∨ missingAnchors ≠ [] then
    { emptyResult with
      warnings := warnings
      missing :=
        { budgets := missingBudgets, enrollment := missingEnrollment,
          anchors := missingAnchors } }
  else
    mainResult unique budgets enrollments anchors warnings rate cpsm share

/-- `computeConsolidationV1` from `src/unnamed/part_006`.  Its first three
lines clamp the parameters; everything below is `computeCore`. -/
noncomputable def computeConsolidationV1 (selectedKeys : List String) (budgets : BudgetsMap)
    (enrollments : LeaEnrollmentMap) (anchors : DistrictAnchorsMap)
    (params : ConsolidationParamsV1) : ConsolidationResultV1 :=
  computeCore selectedKeys budgets enrollments anchors
    (clamp params.adminReductionRate 0 1)
    (max 0 params.costPerStudentMile)
    (clamp params.affectedShare 0 1)

/-! ## Canonical strings

`Canon` captures the shape of every `normalizeDistrictName` output: only
lower-case ASCII word characters and single interior spaces.  It is the
invariant on which the idempotence analysis rests. -/

/-- Characters that can occur in a normalized name: lower-case ASCII
letters, digits, underscore, space. -/
def canonChar (c : Char) : Bool :=
  ('a' ≤ c && c ≤ 'z') || ('0' ≤ c && c ≤ '9') || c = '_' || c = ' '

/-- A canonical character list: canonical characters only, no leading or
trailing space, no two adjacent spaces. -/
def Canon (l : List Char) : Prop :=
  (∀ c ∈ l, canonChar c) ∧ l.head? ≠ some ' ' ∧ l.getLast? ≠ some ' ' ∧
    ¬ [' ', ' '] <:+: l

/-- All five suffixes that `normalizeDistrictName` may strip. -/
def ALL_SUFFIXES : List (List Char) := SUFFIXES ++ LEVEL_SUFFIXES

/-- Recursive description of the hub-selection loop starting from candidate
`hk` whose total is the running maximum: the first key achieving the maximum
enrollment total (strict `>` keeps the earlier candidate on ties). -/
noncomputable def firstMaxKey (e : LeaEnrollmentMap) : String → List String → String
  | hk, [] => hk
  | hk, k :: rest =>
    if etotal e hk < etotal e k then firstMaxKey e k rest else firstMaxKey e hk rest

/-! ## Concrete inputs used by the witnesses -/

/-- Example budget record for the larger district. -/
def exBudgetAlpha : DistrictBudget where
  displayName := "Alpha District"
  sourceFile := "alpha.csv"
  fiscalYear := "FY2024"
  totalExpenditures := 100000000
  centralAdministration := 6000000
  centralAdministrationModel := 5000000
  adminShareOfTotal := none
  adminShareOfTotalModel := none
  components := { districtManagement := 0, programOperationsManagement := 0 }
  componentsModel := { districtManagement := 0, programOperationsManagement := 0 }
  flags := []

/-- Example budget record for the smaller district. -/
def exBudgetBeta : DistrictBudget where
  displayName := "Beta District"
  sourceFile := "beta.csv"
  fiscalYear := "FY2024"
  totalExpenditures := 40000000
  centralAdministration := 3000000
  centralAdministrationModel := 2000000
  adminShareOfTotal := none
  adminShareOfTotalModel := none
  components := { districtManagement := 0, programOperationsManagement := 0 }
  componentsModel := { districtManagement := 0, programOperationsManagement := 0 }
  flags := []

/-- Example budgets map with both districts present. -/
def exBudgets : BudgetsMap := fun k =>
  if k = "alpha" then some exBudgetAlpha
  else if k = "beta" then some exBudgetBeta
  else none

/-- Example budgets map in which `"beta"` has no budget record. -/
def exBudgetsMissingBeta : BudgetsMap := fun k =>
  if k = "alpha" then some exBudgetAlpha else none

/-- Example enrollment map (`alpha` 10000 students, `beta` 2000). -/
def exEnrollments : LeaEnrollmentMap := fun k =>
  if k = "alpha" then some { distcode := "01", distname := "Alpha", total := 10000 }
  else if k = "beta" then some { distcode := "02", distname := "Beta", total := 2000 }
  else none

/-- Example anchors map. -/
def exAnchors : DistrictAnchorsMap := fun k =>
  if k = "alpha" then
    some { displayName := "Alpha District", lat := 41.8, lon := -71.4,
           anchorType := "high_school" }
  else if k = "beta" then
    some { displayName := "Beta District", lat := 41.7, lon := -71.5,
           anchorType := "high_school" }
  else none

/-- Example parameters. -/
def exParams : ConsolidationParamsV1 where
  adminReductionRate := 0.5
  costPerStudentMile := 3
  affectedShare := 1

end RISchool

/-! # Theorems -/

namespace RISchool

/-! ## Character-class facts -/

lemma canonChar_cases {c : Char} (hc : canonChar c = true) :
    ('a' ≤ c ∧ c ≤ 'z') ∨ ('0' ≤ c ∧ c ≤ '9') ∨ c = '_' ∨ c = ' ' := by
  simp only [canonChar, Bool.or_eq_true, Bool.and_eq_true, decide_eq_true_eq] at hc
  tauto

lemma canon_not_upper {c : Char} (hc : canonChar c = true) : ¬('A' ≤ c ∧ c ≤ 'Z') := by
  intro hu
  have b1 : 65 ≤ c.toNat := hu.1
  have b2 : c.toNat ≤ 90 := hu.2
  rcases canonChar_cases hc with ⟨u1, _⟩ | ⟨_, u2⟩ | rfl | rfl
  · have : 97 ≤ c.toNat := u1
    omega
  · have : c.toNat ≤ 57 := u2
    omega
  · exact absurd hu (by decide)
  · exact absurd hu (by decide)

lemma isJsSpace_iff_of_canon {c : Char} (hc : canonChar c = true) :
    isJsSpace c = true ↔ c = ' ' := by
  constructor
  · intro hs
    simp only [isJsSpace, Bool.or_eq_true, decide_eq_true_eq] at hs
    rcases hs with ((((h | h) | h) | h) | h) | h
    · exact h
    all_goals (subst h; exact absurd hc (by decide))
  · rintro rfl
    decide

lemma jsToLowerChar_canon {c : Char} (hc : canonChar c = true) : jsToLowerChar c = c := by
  unfold jsToLowerChar
  rw [if_neg (canon_not_upper hc)]

lemma canon_ne_amp {c : Char} (hc : canonChar c = true) : c ≠ '&' := by
  rintro rfl
  exact absurd hc (by decide)

lemma canon_ne_lparen {c : Char} (hc : canonChar c = true) : c ≠ '(' := by
  rintro rfl
  exact absurd hc (by decide)

lemma isDash_canon {c : Char} (hc : canonChar c = true) : isDash c = false := by
  cases hd : isDash c
  · rfl
  · simp only [isDash, Bool.or_eq_true, decide_eq_true_eq] at hd
    rcases hd with (h | h) | h
    all_goals (subst h; exact absurd hc (by decide))

lemma word_or_space_of_canon {c : Char} (hc : canonChar c = true) :
    (isWordChar c || isJsSpace c) = true := by
  rcases canonChar_cases hc with ⟨u1, u2⟩ | ⟨u1, u2⟩ | rfl | rfl
  · simp [isWordChar, u1, u2]
  · simp [isWordChar, u1, u2]
  · decide
  · decide

lemma canon_of_word_notUpper {c : Char} (hw : isWordChar c = true)
    (hu : ¬('A' ≤ c ∧ c ≤ 'Z')) : canonChar c = true := by
  simp only [isWordChar, Bool.or_eq_true, Bool.and_eq_true, decide_eq_true_eq] at hw
  rcases hw with ((⟨h1, h2⟩ | ⟨h1, h2⟩) | ⟨h1, h2⟩) | h
  · exact absurd ⟨h1, h2⟩ hu
  · simp [canonChar, h1, h2]
  · simp [canonChar, h1, h2]
  · simp [canonChar, h]

/-- A character produced by `jsToLowerChar` is never an upper-case ASCII
letter. -/
lemma jsToLowerChar_not_upper (c : Char) : ¬('A' ≤ jsToLowerChar c ∧ jsToLowerChar c ≤ 'Z') := by
  unfold jsToLowerChar
  split
  · rename_i hu
    intro hcon
    have b1 : 65 ≤ c.toNat := hu.1
    have b2 : c.toNat ≤ 90 := hu.2
    have hvalid : (c.toNat + 32).isValidChar := Or.inl (by omega)
    have hofn : (Char.ofNat (c.toNat + 32)).toNat = c.toNat + 32 := by
      unfold Char.ofNat
      rw [dif_pos hvalid]
      unfold Char.ofNatAux Char.toNat
      simp [UInt32.toNat, BitVec.toNat_ofNatLt]
    have c1 : 65 ≤ (Char.ofNat (c.toNat + 32)).toNat := hcon.1
    have c2 : (Char.ofNat (c.toNat + 32)).toNat ≤ 90 := hcon.2
    omega
  · rename_i hu
    exact hu

/-! ## Generic list utilities -/

lemma map_eq_self_of {α : Type} {f : α → α} {l : List α} (h : ∀ c ∈ l, f c = c) :
    l.map f = l := by
  induction l with
  | nil => rfl
  | cons c cs ih =>
    simp only [List.map_cons]
    rw [h c (by simp), ih (fun x hx => h x (by simp [hx]))]

lemma head?_dropWhile {p : Char → Bool} {l : List Char} {a : Char}
    (h : (l.dropWhile p).head? = some a) : p a = false := by
  induction l with
  | nil => simp [List.dropWhile] at h
  | cons c cs ih =>
    rw [List.dropWhile_cons] at h
    split at h
    · exact ih h
    · rename_i hpc
      simp only [List.head?_cons, Option.some.injEq] at h
      subst h
      simpa using hpc

lemma dropWhile_eq_self_of_head {p : Char → Bool} {l : List Char}
    (h : ∀ a, l.head? = some a → p a = false) : l.dropWhile p = l := by
  cases l with
  | nil => rfl
  | cons c cs =>
    rw [List.dropWhile_cons, if_neg]
    simp [h c rfl]

lemma getLast?_of_suffix {l1 l2 : List Char} (h : l1 <:+ l2) (hne : l1 ≠ []) :
    l1.getLast? = l2.getLast? := by
  obtain ⟨w, rfl⟩ := h
  exact (List.getLast?_append_of_ne_nil w hne).symm

lemma infix_cons_intro {l1 l2 : List Char} (a : Char) (h : l1 <:+: l2) :
    l1 <:+: a :: l2 := by
  obtain ⟨s, t, hst⟩ := h
  exact ⟨a :: s, t, by simp [← hst]⟩

/-! ## Facts about `trimL` -/

lemma trimL_infix_self (l : List Char) : trimL l <:+: l := by
  unfold trimL
  have h1 : ((l.dropWhile isJsSpace).reverse.dropWhile isJsSpace) <:+
      (l.dropWhile isJsSpace).reverse := List.dropWhile_suffix _
  have h2 : ((l.dropWhile isJsSpace).reverse.dropWhile isJsSpace).reverse <+:
      l.dropWhile isJsSpace := by
    have := List.reverse_prefix.mpr h1
    rwa [List.reverse_reverse] at this
  exact h2.isInfix.trans (List.dropWhile_suffix _).isInfix

lemma trimL_head? {l : List Char} {a : Char} (h : (trimL l).head? = some a) :
    isJsSpace a = false := by
  unfold trimL at h
  rw [List.head?_reverse] at h
  have hne : (l.dropWhile isJsSpace).reverse.dropWhile isJsSpace ≠ [] := by
    intro h0
    rw [h0] at h
    simp at h
  rw [getLast?_of_suffix (List.dropWhile_suffix _) hne, List.getLast?_reverse] at h
  exact head?_dropWhile h

lemma trimL_getLast? {l : List Char} {a : Char} (h : (trimL l).getLast? = some a) :
    isJsSpace a = false := by
  unfold trimL at h
  rw [List.getLast?_reverse] at h
  exact head?_dropWhile h

lemma canon_trimL {l : List Char} (hc : ∀ c ∈ l, canonChar c)
    (hd : ¬ [' ', ' '] <:+: l) : Canon (trimL l) := by
  refine ⟨fun c hcm => hc c ((trimL_infix_self l).sublist.mem hcm), ?_, ?_, ?_⟩
  · intro habs
    have := trimL_head? habs
    simp [isJsSpace] at this
  · intro habs
    have := trimL_getLast? habs
    simp [isJsSpace] at this
  · intro hinf
    exact hd (hinf.trans (trimL_infix_self l))

lemma trimL_eq_self {l : List Char} (hh : l.head? ≠ some ' ') (hl : l.getLast? ≠ some ' ')
    (hc : ∀ c ∈ l, canonChar c) : trimL l = l := by
  unfold trimL
  have h1 : l.dropWhile isJsSpace = l := by
    apply dropWhile_eq_self_of_head
    intro a ha
    cases hsp : isJsSpace a
    · rfl
    · have hca := hc a (List.mem_of_mem_head? ha)
      have := (isJsSpace_iff_of_canon hca).mp hsp
      subst this
      exact absurd ha hh
  rw [h1]
  have h2 : l.reverse.dropWhile isJsSpace = l.reverse := by
    apply dropWhile_eq_self_of_head
    intro a ha
    rw [List.head?_reverse] at ha
    cases hsp : isJsSpace a
    · rfl
    · have hca := hc a (List.mem_of_mem_getLast? ha)
      have := (isJsSpace_iff_of_canon hca).mp hsp
      subst this
      exact absurd ha hl
  rw [h2, List.reverse_reverse]

/-! ## Facts about the `&` and parenthesis replacement stages -/

lemma matchAmp_eq_none {l : List Char} (h : ∀ c ∈ l, c ≠ '&') : matchAmp l = none := by
  unfold matchAmp
  split
  · rename_i rest heq
    exfalso
    have hmem : '&' ∈ l.dropWhile isJsSpace := by
      rw [heq]
      simp
    exact h '&' ((List.dropWhile_sublist _).mem hmem) rfl
  · rfl

lemma matchAmp_sublist {l rest : List Char} (h : matchAmp l = some rest) :
    rest.Sublist l := by
  unfold matchAmp at h
  split at h
  · rename_i r heq
    simp only [Option.some.injEq] at h
    subst h
    have h1 : (r.dropWhile isJsSpace).Sublist r := List.dropWhile_sublist _
    have h2 : r.Sublist ('&' :: r) := List.sublist_cons_self '&' r
    have h3 : ('&' :: r).Sublist l := by
      rw [← heq]
      exact List.dropWhile_sublist _
    exact (h1.trans h2).trans h3
  · exact absurd h (by simp)

lemma replaceAmpAux_eq_self {l : List Char} (h : ∀ c ∈ l, c ≠ '&') (fuel : Nat) :
    replaceAmpAux fuel l = l := by
  induction fuel generalizing l with
  | zero => cases l <;> rfl
  | succ n ih =>
    cases l with
    | nil => rfl
    | cons c cs =>
      rw [replaceAmpAux, matchAmp_eq_none h]
      rw [ih (fun x hx => h x (List.mem_cons_of_mem c hx))]

lemma mem_replaceAmpAux {l : List Char} {c : Char} (fuel : Nat)
    (h : c ∈ replaceAmpAux fuel l) : c ∈ l ∨ c ∈ [' ', 'a', 'n', 'd'] := by
  induction fuel generalizing l with
  | zero =>
    cases l with
    | nil => simp [replaceAmpAux] at h
    | cons x xs => exact Or.inl h
  | succ n ih =>
    cases l with
    | nil => simp [replaceAmpAux] at h
    | cons x xs =>
      rw [replaceAmpAux] at h
      cases hm : matchAmp (x :: xs) with
      | some rest =>
        rw [hm] at h
        simp only [List.mem_cons] at h
        rcases h with rfl | rfl | rfl | rfl | rfl | hmem
        · exact Or.inr (by simp)
        · exact Or.inr (by simp)
        · exact Or.inr (by simp)
        · exact Or.inr (by simp)
        · exact Or.inr (by simp)
        · rcases ih hmem with hin | hins
          · exact Or.inl ((matchAmp_sublist hm).mem hin)
          · exact Or.inr hins
      | none =>
        rw [hm] at h
        simp only [List.mem_cons] at h
        rcases h with rfl | hmem
        · exact Or.inl (by simp)
        · rcases ih hmem with hin | hins
          · exact Or.inl (List.mem_cons_of_mem x hin)
          · exact Or.inr hins

lemma matchParen_eq_none {l : List Char} (h : ∀ c ∈ l, c ≠ '(') : matchParen l = none := by
  unfold matchParen
  split
  · rename_i rest heq
    exfalso
    have hmem : '(' ∈ l.dropWhile isJsSpace := by
      rw [heq]
      simp
    exact h '(' ((List.dropWhile_sublist _).mem hmem) rfl
  · rfl

lemma matchParen_sublist {l rest : List Char} (h : matchParen l = some rest) :
    rest.Sublist l := by
  unfold matchParen at h
  split at h
  · rename_i r heq
    split at h
    · rename_i r2 heq2
      simp only [Option.some.injEq] at h
      subst h
      have h1 : (r2.dropWhile isJsSpace).Sublist r2 := List.dropWhile_sublist _
      have h2 : r2.Sublist (')' :: r2) := List.sublist_cons_self ')' r2
      have h3 : (')' :: r2).Sublist r := by
        rw [← heq2]
        exact List.dropWhile_sublist _
      have h4 : r.Sublist ('(' :: r) := List.sublist_cons_self '(' r
      have h5 : ('(' :: r).Sublist l := by
        rw [← heq]
        exact List.dropWhile_sublist _
      exact (((h1.trans h2).trans h3).trans h4).trans h5
    · exact absurd h (by simp)
  · exact absurd h (by simp)

lemma parenRemoveAux_eq_self {l : List Char} (h : ∀ c ∈ l, c ≠ '(') (fuel : Nat) :
    parenRemoveAux fuel l = l := by
  induction fuel generalizing l with
  | zero => cases l <;> rfl
  | succ n ih =>
    cases l with
    | nil => rfl
    | cons c cs =>
      rw [parenRemoveAux, matchParen_eq_none h]
      rw [ih (fun x hx => h x (List.mem_cons_of_mem c hx))]

lemma mem_parenRemoveAux {l : List Char} {c : Char} (fuel : Nat)
    (h : c ∈ parenRemoveAux fuel l) : c ∈ l ∨ c = ' ' := by
  induction fuel generalizing l with
  | zero =>
    cases l with
    | nil => simp [parenRemoveAux] at h
    | cons x xs => exact Or.inl h
  | succ n ih =>
    cases l with
    | nil => simp [parenRemoveAux] at h
    | cons x xs =>
      rw [parenRemoveAux] at h
      cases hm : matchParen (x :: xs) with
      | some rest =>
        rw [hm] at h
        simp only [List.mem_cons] at h
        rcases h with rfl | hmem
        · exact Or.inr rfl
        · rcases ih hmem with hin | hins
          · exact Or.inl ((matchParen_sublist hm).mem hin)
          · exact Or.inr hins
      | none =>
        rw [hm] at h
        simp only [List.mem_cons] at h
        rcases h with rfl | hmem
        · exact Or.inl (by simp)
        · rcases ih hmem with hin | hins
          · exact Or.inl (List.mem_cons_of_mem x hin)
          · exact Or.inr hins

/-! ## Facts about the whitespace-collapsing stage -/

lemma mem_collapseWsAux {l : List Char} {c : Char} {b : Bool}
    (h : c ∈ collapseWsAux b l) : c = ' ' ∨ (c ∈ l ∧ isJsSpace c = false) := by
  induction l generalizing b with
  | nil => simp [collapseWsAux] at h
  | cons x xs ih =>
    rw [collapseWsAux] at h
    by_cases hsp : isJsSpace x = true
    · rw [if_pos hsp] at h
      cases b with
      | true =>
        simp only [if_pos rfl] at h
        rcases ih h with h1 | ⟨h2, h3⟩
        · exact Or.inl h1
        · exact Or.inr ⟨List.mem_cons_of_mem x h2, h3⟩
      | false =>
        simp only [Bool.false_eq_true, if_false, List.mem_cons] at h
        rcases h with rfl | hmem
        · exact Or.inl rfl
        · rcases ih hmem with h1 | ⟨h2, h3⟩
          · exact Or.inl h1
          · exact Or.inr ⟨List.mem_cons_of_mem x h2, h3⟩
    · rw [if_neg hsp] at h
      simp only [List.mem_cons] at h
      rcases h with rfl | hmem
      · exact Or.inr ⟨by simp, by simpa using hsp⟩
      · rcases ih hmem with h1 | ⟨h2, h3⟩
        · exact Or.inl h1
        · exact Or.inr ⟨List.mem_cons_of_mem x h2, h3⟩

lemma collapseWsAux_true_head : ∀ l : List Char, (collapseWsAux true l).head? ≠ some ' ' := by
  intro l
  induction l with
  | nil => simp [collapseWsAux]
  | cons x xs ih =>
    rw [collapseWsAux]
    by_cases hsp : isJsSpace x = true
    · rw [if_pos hsp, if_pos rfl]
      exact ih
    · rw [if_neg hsp]
      intro habs
      simp only [List.head?_cons, Option.some.injEq] at habs
      subst habs
      simp [isJsSpace] at hsp

lemma collapseWsAux_noDouble : ∀ (l : List Char) (b : Bool),
    ¬ ([' ', ' '] <:+: collapseWsAux b l) := by
  intro l
  induction l with
  | nil =>
    intro b h
    rw [show collapseWsAux b [] = [] from rfl, List.infix_nil] at h
    simp at h
  | cons x xs ih =>
    intro b hinf
    rw [collapseWsAux] at hinf
    by_cases hsp : isJsSpace x = true
    · rw [if_pos hsp] at hinf
      cases b with
      | true =>
        rw [if_pos rfl] at hinf
        exact ih true hinf
      | false =>
        simp only [Bool.false_eq_true, if_false] at hinf
        rw [List.infix_cons_iff] at hinf
        rcases hinf with hpre | hinf2
        · rw [List.cons_prefix_cons] at hpre
          have hhead : (collapseWsAux true xs).head? = some ' ' := by
            obtain ⟨t, ht⟩ := hpre.2
            cases hcw : collapseWsAux true xs with
            | nil => rw [hcw] at ht; simp at ht
            | cons y ys =>
              rw [hcw] at ht
              simp only [List.cons_append, List.cons.injEq] at ht
              simp [← ht.1]
          exact collapseWsAux_true_head xs hhead
        · exact ih true hinf2
    · rw [if_neg hsp] at hinf
      rw [List.infix_cons_iff] at hinf
      rcases hinf with hpre | hinf2
      · rw [List.cons_prefix_cons] at hpre
        have : isJsSpace x = true := by
          rw [← hpre.1]
          decide
        exact hsp this
      · exact ih false hinf2

lemma collapseWsAux_eq_self : ∀ {l : List Char}, (∀ c ∈ l, canonChar c) →
    ¬ ([' ', ' '] <:+: l) → ∀ {b : Bool}, (b = true → l.head? ≠ some ' ') →
    collapseWsAux b l = l := by
  intro l
  induction l with
  | nil => intros; rfl
  | cons c cs ih =>
    intro hc hd b hb
    by_cases hsp : isJsSpace c = true
    · have hceq : c = ' ' := (isJsSpace_iff_of_canon (hc c (by simp))).mp hsp
      subst hceq
      have hbfalse : b = false := by
        cases b with
        | false => rfl
        | true =>
          exfalso
          exact hb rfl (by simp)
      subst hbfalse
      rw [collapseWsAux, if_pos hsp]
      simp only [Bool.false_eq_true, if_false]
      congr 1
      apply ih (fun x hx => hc x (List.mem_cons_of_mem _ hx))
      · intro habs
        exact hd (infix_cons_intro _ habs)
      · intro _ hhead
        apply hd
        cases cs with
        | nil => simp at hhead
        | cons y ys =>
          simp only [List.head?_cons, Option.some.injEq] at hhead
          subst hhead
          exact ⟨[], ys, rfl⟩
    · rw [collapseWsAux, if_neg hsp]
      congr 1
      apply ih (fun x hx => hc x (List.mem_cons_of_mem _ hx))
      · intro habs
        exact hd (infix_cons_intro _ habs)
      · intro hfalse
        exact absurd hfalse (by simp)

/-! ## The normalization pipeline produces canonical strings and fixes them -/

lemma normCore_canon (l : List Char) : Canon (normCore l) := by
  unfold normCore collapseWs parenRemove replaceAmp
  apply canon_trimL
  · intro c hc
    rcases mem_collapseWsAux hc with rfl | ⟨hmem, hnsp⟩
    · decide
    · rcases mem_parenRemoveAux _ hmem with hmem2 | rfl
      · rw [List.mem_filter] at hmem2
        obtain ⟨hmem3, hws⟩ := hmem2
        have hword : isWordChar c = true := by
          rcases Bool.or_eq_true _ _ |>.mp hws with hw | hs
          · exact hw
          · rw [hs] at hnsp
            exact absurd hnsp (by simp)
        rcases List.mem_map.mp hmem3 with ⟨c0, hc0mem, hc0eq⟩
        by_cases hdash : isDash c0 = true
        · rw [if_pos hdash] at hc0eq
          rw [← hc0eq] at hnsp
          exact absurd hnsp (by simp [isJsSpace])
        · rw [if_neg hdash] at hc0eq
          subst hc0eq
          have hnu : ¬ ('A' ≤ c0 ∧ c0 ≤ 'Z') := by
            rcases mem_replaceAmpAux _ hc0mem with hin | hins
            · have hin2 := (trimL_infix_self _).sublist.mem hin
              rcases List.mem_map.mp hin2 with ⟨c1, _, hc1⟩
              rw [← hc1]
              exact jsToLowerChar_not_upper c1
            · fin_cases hins <;> decide
          exact canon_of_word_notUpper hword hnu
      · exact absurd hnsp (by simp [isJsSpace])
  · exact collapseWsAux_noDouble _ false

lemma normCore_eq_self {l : List Char} (hc : Canon l) : normCore l = l := by
  obtain ⟨hch, hh, hl, hd⟩ := hc
  unfold normCore replaceAmp parenRemove collapseWs
  rw [map_eq_self_of (fun c hcm => jsToLowerChar_canon (hch c hcm))]
  rw [trimL_eq_self hh hl hch]
  rw [replaceAmpAux_eq_self (fun c hcm => canon_ne_amp (hch c hcm)) _]
  rw [map_eq_self_of (fun c hcm => by simp [isDash_canon (hch c hcm)])]
  rw [List.filter_eq_self.mpr (fun c hcm => word_or_space_of_canon (hch c hcm))]
  rw [parenRemoveAux_eq_self (fun c hcm => canon_ne_lparen (hch c hcm)) _]
  rw [collapseWsAux_eq_self hch hd (fun hfalse => absurd hfalse (by simp))]
  exact trimL_eq_self hh hl hch

lemma canon_stripFirstSuffix {t : List Char} (hc : Canon t) (sufs : List (List Char)) :
    Canon (stripFirstSuffix sufs t) := by
  induction sufs with
  | nil => exact hc
  | cons suf rest ih =>
    rw [stripFirstSuffix]
    split
    · exact canon_trimL (fun c hcm => hc.1 c (List.mem_of_mem_take hcm))
        (fun hinf => hc.2.2.2 (hinf.trans (List.take_prefix _ _).isInfix))
    · exact ih

lemma stripFirstSuffix_eq_self {t : List Char} {sufs : List (List Char)}
    (h : ∀ suf ∈ sufs, suf.isSuffixOf t = false) : stripFirstSuffix sufs t = t := by
  induction sufs with
  | nil => rfl
  | cons suf rest ih =>
    rw [stripFirstSuffix, if_neg]
    · exact ih (fun s hs => h s (List.mem_cons_of_mem _ hs))
    · simp [h suf (by simp)]

lemma normList_canon (l : List Char) : Canon (normList l) := by
  unfold normList
  exact canon_stripFirstSuffix (canon_stripFirstSuffix (normCore_canon l) SUFFIXES)
    LEVEL_SUFFIXES

lemma normList_eq_self {t : List Char} (hc : Canon t)
    (h : ∀ suf ∈ ALL_SUFFIXES, suf.isSuffixOf t = false) : normList t = t := by
  unfold normList
  rw [normCore_eq_self hc]
  rw [stripFirstSuffix_eq_self
    (fun s hs => h s (by simp [ALL_SUFFIXES, List.mem_append, hs]))]
  exact stripFirstSuffix_eq_self
    (fun s hs => h s (by simp [ALL_SUFFIXES, List.mem_append, hs]))

lemma toList_mk (L : List Char) : (String.mk L).toList = L := rfl

/-! ## Claims C7 and C8: keying agreement and normalization idempotence -/

/-- C7, counterexample: the two `districtKey` implementations disagree on
`"Bistol Warren Regional District"` — the shared-normalization module maps it
through its alias table to `"bristol warren"`, while the enrollment module's
alias table is empty, so it returns the normalized string unchanged. -/
theorem districtKey_implementations_disagree :
    districtKey "Bistol Warren Regional District" ≠
      Enrollment.districtKey "Bistol Warren Regional District" := by
  decide

/-- C8, counterexample: normalization is not idempotent.  Each call strips at
most one trailing type suffix, so `"a school district school district"`
normalizes to `"a school district"`, which normalizes again to `"a"`. -/
theorem normalize_not_idempotent :
    normalizeDistrictName (normalizeDistrictName "a school district school district") ≠
      normalizeDistrictName "a school district school district" := by
  decide

/-- C8 (amended): normalization is idempotent on every string whose
normalized form does not still end with one of the five strippable suffixes
(`" regional school district"`, `" school district"`, `" public schools"`,
`" elementary"`, `" secondary"`).  The character-level pipeline (lower-casing,
trimming, `&`/dash/punctuation/parenthesis handling, whitespace collapsing)
is always idempotent; only the strip-one-suffix step can change a normalized
string again. -/
theorem normalize_idem_of_no_suffix (x : String)
    (h : ∀ suf ∈ ALL_SUFFIXES, suf.isSuffixOf (normalizeDistrictName x).toList = false) :
    normalizeDistrictName (normalizeDistrictName x) = normalizeDistrictName x := by
  by_cases hx : x = ""
  · subst hx
    rfl
  · have hnx : normalizeDistrictName x = String.mk (normList x.toList) := by
      unfold normalizeDistrictName
      rw [if_neg hx]
    by_cases ht : normalizeDistrictName x = ""
    · rw [ht]
      rfl
    · conv_lhs => rw [normalizeDistrictName]
      rw [if_neg ht]
      rw [hnx] at h ⊢
      rw [toList_mk] at h ⊢
      rw [normList_eq_self (normList_canon x.toList) h]

/-- C8 (amended), witness at `"Providence"`. -/
theorem normalize_idem_of_no_suffix_witness :
    (∀ suf ∈ ALL_SUFFIXES,
      suf.isSuffixOf (normalizeDistrictName "Providence").toList = false) ∧
    normalizeDistrictName (normalizeDistrictName "Providence") =
      normalizeDistrictName "Providence" :=
  ⟨by decide, normalize_idem_of_no_suffix "Providence" (by decide)⟩

/-- C7 (amended): the two normalization functions agree on every input
(their bodies are identical), and the two `districtKey` implementations
agree on every name whose normalization is not the one entry
`"bistol warren regional district"` of the shared module's alias table. -/
theorem districtKey_agree_of_not_alias (name : String)
    (h : normalizeDistrictName name ≠ "bistol warren regional district") :
    normalizeForKey name = normalizeDistrictName name ∧
      Enrollment.districtKey name = districtKey name := by
  refine ⟨rfl, ?_⟩
  unfold Enrollment.districtKey districtKey Enrollment.DISTRICT_ALIASES DISTRICT_ALIASES
  have hsame : normalizeForKey name = normalizeDistrictName name := rfl
  simp only [hsame, if_neg h]

/-- C7 (amended), witness at `"Providence"`. -/
theorem districtKey_agree_of_not_alias_witness :
    normalizeDistrictName "Providence" ≠ "bistol warren regional district" ∧
      (normalizeForKey "Providence" = normalizeDistrictName "Providence" ∧
        Enrollment.districtKey "Providence" = districtKey "Providence") :=
  ⟨by decide, districtKey_agree_of_not_alias "Providence" (by decide)⟩

/-! ## Claim C9: properties of `milesBetween` -/

lemma milesBetween_symm (a b : GeoPoint) : milesBetween a b = milesBetween b a := by
  have key : ∀ x y : ℝ,
      Real.sin ((x - y) * Real.pi / 180 / 2) = -Real.sin ((y - x) * Real.pi / 180 / 2) := by
    intro x y
    rw [show (x - y) * Real.pi / 180 / 2 = -((y - x) * Real.pi / 180 / 2) by ring,
      Real.sin_neg]
  simp only [milesBetween, toRad]
  rw [key b.lat a.lat, key b.lon a.lon]
  ring_nf

lemma milesBetween_self (a : GeoPoint) : milesBetween a a = 0 := by
  simp only [milesBetween, toRad]
  simp [sub_self, zero_mul, zero_div, Real.sin_zero, mul_zero, zero_add, add_zero,
    Real.sqrt_zero, Real.arcsin_zero]

lemma cos_lat_pos {lat : ℝ} (h1 : -90 < lat) (h2 : lat < 90) :
    0 < Real.cos (lat * Real.pi / 180) := by
  apply Real.cos_pos_of_mem_Ioo
  constructor
  · nlinarith [Real.pi_pos]
  · nlinarith [Real.pi_pos]

lemma sin_ne_zero_of_small {x : ℝ} (h1 : -Real.pi < x) (h2 : x < Real.pi) (h3 : x ≠ 0) :
    Real.sin x ≠ 0 :=
  fun hs => h3 ((Real.sin_eq_zero_iff_of_lt_of_lt h1 h2).mp hs)

lemma half_angle_ne_zero (bound : ℝ) {d : ℝ} (hlo : -bound < d) (hhi : d < bound)
    (hbound : bound ≤ 360) (hne : d ≠ 0) :
    Real.sin (d * Real.pi / 180 / 2) ≠ 0 := by
  apply sin_ne_zero_of_small
  · nlinarith [Real.pi_pos]
  · nlinarith [Real.pi_pos]
  · intro habs
    have hpi := Real.pi_ne_zero
    have : d * Real.pi = 0 := by linarith [habs]
    rcases mul_eq_zero.mp this with h | h
    · exact hne h
    · exact hpi h

/-- C9 (amended): `milesBetween` is symmetric and vanishes on identical
coordinate pairs; and for two *distinct* points with latitudes strictly
between −90 and 90 and longitudes in (−180, 180] the distance is strictly
positive.  The unrestricted "zero iff identical" of the claim is false:
distinct coordinate pairs at a pole have distance zero (see the
counterexample). -/
theorem milesBetween_props :
    (∀ a b : GeoPoint, milesBetween a b = milesBetween b a) ∧
    (∀ a : GeoPoint, milesBetween a a = 0) ∧
    (∀ a b : GeoPoint, -90 < a.lat → a.lat < 90 → -90 < b.lat → b.lat < 90 →
      -180 < a.lon → a.lon ≤ 180 → -180 < b.lon → b.lon ≤ 180 → a ≠ b →
      0 < milesBetween a b) := by
  refine ⟨milesBetween_symm, milesBetween_self, ?_⟩
  intro a b ha1 ha2 hb1 hb2 ha3 ha4 hb3 hb4 hne
  have hca : 0 < Real.cos (a.lat * Real.pi / 180) := cos_lat_pos ha1 ha2
  have hcb : 0 < Real.cos (b.lat * Real.pi / 180) := cos_lat_pos hb1 hb2
  simp only [milesBetween, toRad]
  set s1 := Real.sin ((b.lat - a.lat) * Real.pi / 180 / 2) with hs1
  set s2 := Real.sin ((b.lon - a.lon) * Real.pi / 180 / 2) with hs2
  have hh : 0 < s1 * s1 +
      Real.cos (a.lat * Real.pi / 180) * Real.cos (b.lat * Real.pi / 180) * s2 * s2 := by
    by_cases hlat : a.lat = b.lat
    · have hlon : a.lon ≠ b.lon := by
        intro hlon
        exact hne (by cases a; cases b; simp_all)
      have hs2ne : s2 ≠ 0 := by
        rw [hs2]
        apply half_angle_ne_zero 360
        · linarith
        · linarith
        · linarith
        · intro habs
          exact hlon (by linarith)
      have h1 : s1 = 0 := by
        rw [hs1, hlat, sub_self]
        simp
      rw [h1]
      nlinarith [mul_pos (mul_pos hca hcb) (mul_self_pos.mpr hs2ne)]
    · have hs1ne : s1 ≠ 0 := by
        rw [hs1]
        apply half_angle_ne_zero 180
        · linarith
        · linarith
        · linarith
        · intro habs
          exact hlat (by linarith)
      nlinarith [mul_self_pos.mpr hs1ne,
        mul_nonneg (mul_nonneg hca.le hcb.le) (mul_self_nonneg s2)]
  have hsq : 0 < Real.sqrt (s1 * s1 +
      Real.cos (a.lat * Real.pi / 180) * Real.cos (b.lat * Real.pi / 180) * s2 * s2) :=
    Real.sqrt_pos.mpr hh
  have harc := Real.arcsin_pos.mpr hsq
  have hr : (0 : ℝ) < 2 * EARTH_RADIUS_MILES := by
    unfold EARTH_RADIUS_MILES
    norm_num
  exact mul_pos hr harc

/-- C9 (amended), witness: two distinct equatorial points at valid
coordinates have strictly positive distance. -/
theorem milesBetween_props_witness :
    ((-90 : ℝ) < 0 ∧ (0 : ℝ) < 90 ∧ (-180 : ℝ) < 0 ∧ (0 : ℝ) ≤ 180 ∧
      (-180 : ℝ) < 1 ∧ (1 : ℝ) ≤ 180 ∧ (⟨0, 0⟩ : GeoPoint) ≠ ⟨0, 1⟩) ∧
    0 < milesBetween ⟨0, 0⟩ ⟨0, 1⟩ := by
  have hne : (⟨0, 0⟩ : GeoPoint) ≠ ⟨0, 1⟩ := by
    intro h
    exact absurd (congrArg GeoPoint.lon h) (by norm_num)
  exact ⟨⟨by norm_num, by norm_num, by norm_num, by norm_num, by norm_num, by norm_num, hne⟩,
    milesBetween_props.2.2 ⟨0, 0⟩ ⟨0, 1⟩ (by norm_num) (by norm_num) (by norm_num)
      (by norm_num) (by norm_num) (by norm_num) (by norm_num) (by norm_num) hne⟩

/-- C9, counterexample: `milesBetween` is not "zero only at identical
points" — the two distinct coordinate pairs (90, 0) and (90, 1) at the north
pole are at haversine distance 0. -/
theorem milesBetween_zero_at_distinct_points :
    milesBetween ⟨90, 0⟩ ⟨90, 1⟩ = 0 ∧ (⟨90, 0⟩ : GeoPoint) ≠ ⟨90, 1⟩ := by
  constructor
  · simp only [milesBetween, toRad]
    have h90 : (90 : ℝ) * Real.pi / 180 = Real.pi / 2 := by ring
    norm_num [h90, Real.cos_pi_div_two]
  · intro h
    exact absurd (congrArg GeoPoint.lon h) (by norm_num)

/-! ## Branch analysis of the estimator -/

lemma computeCore_eq_mainResult {keys : List String} {b : BudgetsMap}
    {e : LeaEnrollmentMap} {a : DistrictAnchorsMap} {rate cpsm share : ℝ}
    (h2 : ¬ (orderedDedup keys).length < 2)
    (hb : (orderedDedup keys).filter (fun k => (b k).isNone) = [])
    (he : (orderedDedup keys).filter (fun k => enrollmentMissing e k) = [])
    (ha : (orderedDedup keys).filter (fun k => (a k).isNone) = []) :
    computeCore keys b e a rate cpsm share =
      mainResult (orderedDedup keys) b e a (budgetFlagWarnings b (orderedDedup keys))
        rate cpsm share := by
  simp only [computeCore]
  rw [if_neg h2, if_neg]
  push_neg
  exact ⟨hb, he, ha⟩

lemma computeCore_ok_elim {keys : List String} {b : BudgetsMap}
    {e : LeaEnrollmentMap} {a : DistrictAnchorsMap} {rate cpsm share : ℝ}
    (hok : (computeCore keys b e a rate cpsm share).ok = true) :
    ¬ (orderedDedup keys).length < 2 ∧
    (orderedDedup keys).filter (fun k => (b k).isNone) = [] ∧
    (orderedDedup keys).filter (fun k => enrollmentMissing e k) = [] ∧
    (orderedDedup keys).filter (fun k => (a k).isNone) = [] := by
  simp only [computeCore] at hok
  split_ifs at hok with h1 h2
  · exact absurd hok (by simp [emptyResult])
  · exact absurd hok (by simp [emptyResult])
  · push_neg at h2
    exact ⟨h1, h2.1, h2.2.1, h2.2.2⟩

lemma enrollmentMissing_iff {e : LeaEnrollmentMap} {k : String} :
    enrollmentMissing e k = true ↔ ∀ rec, e k = some rec → rec.total ≤ 0 := by
  unfold enrollmentMissing
  cases he : e k with
  | none => simp
  | some rec =>
    change (if rec.total ≤ 0 then true else false) = true ↔ _
    split_ifs with h
    · simp only [true_iff]
      intro rec' heq
      exact (Option.some.inj heq) ▸ h
    · simp only [Bool.false_eq_true, false_iff, not_forall]
      exact ⟨rec, rfl, h⟩

lemma etotal_pos_of_not_missing {e : LeaEnrollmentMap} {k : String}
    (h : enrollmentMissing e k = false) : 0 < etotal e k := by
  unfold enrollmentMissing at h
  unfold etotal
  cases he : e k with
  | none => rw [he] at h; simp at h
  | some rec =>
    rw [he] at h
    change (if rec.total ≤ 0 then true else false) = false at h
    change 0 < rec.total
    split_ifs at h with hle
    exact lt_of_not_le hle

/-! ## Claims C4 and C5: clamping and insufficient selection -/

lemma clamp_clamp (v : ℝ) : clamp (clamp v 0 1) 0 1 = clamp v 0 1 := by
  unfold clamp
  have h1 : (0 : ℝ) ≤ max 0 (min 1 v) := le_max_left 0 _
  have h2 : max 0 (min 1 v) ≤ 1 := max_le (by norm_num) (min_le_left 1 v)
  rw [min_eq_right h2, max_eq_right h1]

lemma max_zero_idem (v : ℝ) : max 0 (max 0 v) = max 0 v := by
  rw [← max_assoc, max_self]

/-- C4: `computeConsolidationV1` clamps `adminReductionRate` and
`affectedShare` into [0,1] and `costPerStudentMile` into [0,∞) before any
use: a call with `adminReductionRate = 5` is identical to one with `1`, a
call with `-1` identical to one with `0`, and in general a call behaves
exactly like the call with pre-clamped parameters (whose values lie in the
valid ranges). -/
theorem param_clamping :
    (∀ (keys : List String) (b : BudgetsMap) (e : LeaEnrollmentMap)
        (a : DistrictAnchorsMap) (c s : ℝ),
      computeConsolidationV1 keys b e a ⟨5, c, s⟩ =
        computeConsolidationV1 keys b e a ⟨1, c, s⟩) ∧
    (∀ (keys : List String) (b : BudgetsMap) (e : LeaEnrollmentMap)
        (a : DistrictAnchorsMap) (c s : ℝ),
      computeConsolidationV1 keys b e a ⟨-1, c, s⟩ =
        computeConsolidationV1 keys b e a ⟨0, c, s⟩) ∧
    (∀ (keys : List String) (b : BudgetsMap) (e : LeaEnrollmentMap)
        (a : DistrictAnchorsMap) (p : ConsolidationParamsV1),
      computeConsolidationV1 keys b e a p =
        computeConsolidationV1 keys b e a
          ⟨clamp p.adminReductionRate 0 1, max 0 p.costPerStudentMile,
            clamp p.affectedShare 0 1⟩) ∧
    (∀ v : ℝ, 0 ≤ clamp v 0 1 ∧ clamp v 0 1 ≤ 1 ∧ 0 ≤ max 0 v) := by
  refine ⟨?_, ?_, ?_, ?_⟩
  · intro keys b e a c s
    unfold computeConsolidationV1
    norm_num [clamp]
  · intro keys b e a c s
    unfold computeConsolidationV1
    norm_num [clamp]
  · intro keys b e a p
    unfold computeConsolidationV1
    rw [clamp_clamp, clamp_clamp, max_zero_idem]
  · intro v
    refine ⟨le_max_left 0 _, max_le (by norm_num) (min_le_left 1 v), le_max_left 0 v⟩

/-- C5: when the order-preserving deduplication of the selected keys leaves
fewer than 2 unique keys, the result is the empty template with the single
warning `"Select at least 2 districts"`, `ok = false`, and all three missing
lists empty. -/
theorem insufficient_selection (keys : List String) (b : BudgetsMap)
    (e : LeaEnrollmentMap) (a : DistrictAnchorsMap) (p : ConsolidationParamsV1)
    (h : (orderedDedup keys).length < 2) :
    computeConsolidationV1 keys b e a p =
      { emptyResult with warnings := ["Select at least 2 districts"] } ∧
    (computeConsolidationV1 keys b e a p).ok = false ∧
    (computeConsolidationV1 keys b e a p).warnings = ["Select at least 2 districts"] ∧
    (computeConsolidationV1 keys b e a p).missing =
      { budgets := [], enrollment := [], anchors := [] } := by
  have hres : computeConsolidationV1 keys b e a p =
      { emptyResult with warnings := ["Select at least 2 districts"] } := by
    unfold computeConsolidationV1
    simp only [computeCore]
    rw [if_pos h]
  refine ⟨hres, ?_, ?_, ?_⟩ <;> rw [hres] <;> rfl

/-- C5, witness: selecting the single district `"alpha"` twice. -/
theorem insufficient_selection_witness :
    (orderedDedup ["alpha", "alpha"]).length < 2 ∧
    (computeConsolidationV1 ["alpha", "alpha"] exBudgets exEnrollments exAnchors
        exParams).ok = false :=
  ⟨by decide,
    (insufficient_selection ["alpha", "alpha"] exBudgets exEnrollments exAnchors exParams
      (by decide)).2.1⟩

/-! ## Claim C3: the net-impact identities -/

/-- C3: for every `ok: true` result, `netImpact` equals
`adminSavings - transportationIncrease` exactly, and `projectedSpending`
equals `combinedSpending - netImpact` exactly. -/
theorem net_impact_identity (keys : List String) (b : BudgetsMap) (e : LeaEnrollmentMap)
    (a : DistrictAnchorsMap) (p : ConsolidationParamsV1)
    (hok : (computeConsolidationV1 keys b e a p).ok = true) :
    (computeConsolidationV1 keys b e a p).netImpact =
        (computeConsolidationV1 keys b e a p).adminSavings -
          (computeConsolidationV1 keys b e a p).transportationIncrease ∧
      (computeConsolidationV1 keys b e a p).projectedSpending =
        (computeConsolidationV1 keys b e a p).combinedSpending -
          (computeConsolidationV1 keys b e a p).netImpact := by
  unfold computeConsolidationV1 at hok ⊢
  obtain ⟨h1, hb, he, ha⟩ := computeCore_ok_elim hok
  rw [computeCore_eq_mainResult h1 hb he ha]
  exact ⟨rfl, rfl⟩

lemma exEnrollmentFilter :
    (orderedDedup ["alpha", "beta"]).filter
      (fun k => enrollmentMissing exEnrollments k) = [] := by
  have hda : enrollmentMissing exEnrollments "alpha" = false := by
    simp [enrollmentMissing, exEnrollments]
  have hdb : enrollmentMissing exEnrollments "beta" = false := by
    simp [enrollmentMissing, exEnrollments]
  have hu : orderedDedup ["alpha", "beta"] = ["alpha", "beta"] := by decide
  rw [hu]
  simp [List.filter, hda, hdb]

lemma exOk :
    (computeConsolidationV1 ["alpha", "beta"] exBudgets exEnrollments exAnchors
      exParams).ok = true := by
  unfold computeConsolidationV1
  rw [computeCore_eq_mainResult (by decide) (by decide) exEnrollmentFilter (by decide)]
  rfl

/-- C3, witness: the identities hold at the two-district example. -/
theorem net_impact_identity_witness :
    (computeConsolidationV1 ["alpha", "beta"] exBudgets exEnrollments exAnchors
        exParams).ok = true ∧
    (computeConsolidationV1 ["alpha", "beta"] exBudgets exEnrollments exAnchors
          exParams).netImpact =
        (computeConsolidationV1 ["alpha", "beta"] exBudgets exEnrollments exAnchors
            exParams).adminSavings -
          (computeConsolidationV1 ["alpha", "beta"] exBudgets exEnrollments exAnchors
              exParams).transportationIncrease :=
  ⟨exOk, (net_impact_identity _ _ _ _ _ exOk).1⟩

/-! ## Claim C1: the missing-data short circuit -/

/-- C1: with at least two unique selected keys, if any selected key lacks a
budget record, an anchor record, or an enrollment record with positive
total, the result is the empty template carrying the three missing lists and
the accumulated budget-flag warnings: `ok` is `false`, each selected key
appears in exactly the missing lists of the datasets it is absent from,
every numeric field is zero, the breakdown is empty. -/
theorem missing_data_short_circuit (keys : List String) (b : BudgetsMap)
    (e : LeaEnrollmentMap) (a : DistrictAnchorsMap) (p : ConsolidationParamsV1)
    (h2 : 2 ≤ (orderedDedup keys).length)
    (hmiss : ∃ k ∈ orderedDedup keys, b k = none ∨ a k = none ∨
      (∀ rec, e k = some rec → rec.total ≤ 0)) :
    computeConsolidationV1 keys b e a p =
      { emptyResult with
        warnings := budgetFlagWarnings b (orderedDedup keys)
        missing :=
          { budgets := (orderedDedup keys).filter (fun k => (b k).isNone)
            enrollment := (orderedDedup keys).filter (fun k => enrollmentMissing e k)
            anchors := (orderedDedup keys).filter (fun k => (a k).isNone) } } ∧
    (computeConsolidationV1 keys b e a p).ok = false ∧
    (∀ k ∈ orderedDedup keys,
      (k ∈ (computeConsolidationV1 keys b e a p).missing.budgets ↔ b k = none) ∧
      (k ∈ (computeConsolidationV1 keys b e a p).missing.enrollment ↔
        ∀ rec, e k = some rec → rec.total ≤ 0) ∧
      (k ∈ (computeConsolidationV1 keys b e a p).missing.anchors ↔ a k = none)) ∧
    (computeConsolidationV1 keys b e a p).hubKey = "" ∧
    (computeConsolidationV1 keys b e a p).hubName = "" ∧
    (computeConsolidationV1 keys b e a p).combinedEnrollment = 0 ∧
    (computeConsolidationV1 keys b e a p).combinedSpending = 0 ∧
    (computeConsolidationV1 keys b e a p).hubSpending = 0 ∧
    (computeConsolidationV1 keys b e a p).spokesSpending = 0 ∧
    (computeConsolidationV1 keys b e a p).baselinePerPupil = 0 ∧
    (computeConsolidationV1 keys b e a p).adminBaselineHub = 0 ∧
    (computeConsolidationV1 keys b e a p).adminBaselineSpokes = 0 ∧
    (computeConsolidationV1 keys b e a p).adminSavings = 0 ∧
    (computeConsolidationV1 keys b e a p).transportationIncrease = 0 ∧
    (computeConsolidationV1 keys b e a p).netImpact = 0 ∧
    (computeConsolidationV1 keys b e a p).projectedSpending = 0 ∧
    (computeConsolidationV1 keys b e a p).projectedPerPupil = 0 ∧
    (computeConsolidationV1 keys b e a p).adminSavingsPctCombined = 0 ∧
    (computeConsolidationV1 keys b e a p).transportIncreasePctCombined = 0 ∧
    (computeConsolidationV1 keys b e a p).netImpactPctCombined = 0 ∧
    (computeConsolidationV1 keys b e a p).adminSavingsPctSpokesSpending = 0 ∧
    (computeConsolidationV1 keys b e a p).transportIncreasePctSpokesSpending = 0 ∧
    (computeConsolidationV1 keys b e a p).netImpactPctSpokesSpending = 0 ∧
    (computeConsolidationV1 keys b e a p).spokeBreakdown = [] ∧
    (computeConsolidationV1 keys b e a p).warnings =
      budgetFlagWarnings b (orderedDedup keys) := by
  have hcond : (orderedDedup keys).filter (fun k => (b k).isNone) ≠ [] ∨
      (orderedDedup keys).filter (fun k => enrollmentMissing e k) ≠ [] ∨
      (orderedDedup keys).filter (fun k => (a k).isNone) ≠ [] := by
    obtain ⟨k, hk, hcase⟩ := hmiss
    rcases hcase with hcb | hca | hce
    · exact Or.inl (List.ne_nil_of_mem (List.mem_filter.mpr ⟨hk, by simp [hcb]⟩))
    · exact Or.inr (Or.inr
        (List.ne_nil_of_mem (List.mem_filter.mpr ⟨hk, by simp [hca]⟩)))
    · exact Or.inr (Or.inl
        (List.ne_nil_of_mem
          (List.mem_filter.mpr ⟨hk, enrollmentMissing_iff.mpr hce⟩)))
  have hres : computeConsolidationV1 keys b e a p =
      { emptyResult with
        warnings := budgetFlagWarnings b (orderedDedup keys)
        missing :=
          { budgets := (orderedDedup keys).filter (fun k => (b k).isNone)
            enrollment := (orderedDedup keys).filter (fun k => enrollmentMissing e k)
            anchors := (orderedDedup keys).filter (fun k => (a k).isNone) } } := by
    unfold computeConsolidationV1
    simp only [computeCore]
    rw [if_neg (not_lt.mpr h2), if_pos hcond]
  rw [hres]
  refine ⟨rfl, rfl, ?_, rfl, rfl, rfl, rfl, rfl, rfl, rfl, rfl, rfl, rfl, rfl, rfl,
    rfl, rfl, rfl, rfl, rfl, rfl, rfl, rfl, rfl, rfl⟩
  intro k hk
  refine ⟨?_, ?_, ?_⟩
  · show k ∈ (orderedDedup keys).filter (fun k => (b k).isNone) ↔ b k = none
    rw [List.mem_filter]
    simp [hk, Option.isNone_iff_eq_none]
  · show k ∈ (orderedDedup keys).filter (fun k => enrollmentMissing e k) ↔
      ∀ rec, e k = some rec → rec.total ≤ 0
    rw [List.mem_filter]
    simp only [hk, true_and]
    exact enrollmentMissing_iff
  · show k ∈ (orderedDedup keys).filter (fun k => (a k).isNone) ↔ a k = none
    rw [List.mem_filter]
    simp [hk, Option.isNone_iff_eq_none]

/-- C1, witness: `"beta"` has no budget record. -/
theorem missing_data_short_circuit_witness :
    2 ≤ (orderedDedup ["alpha", "beta"]).length ∧
    ("beta" ∈ orderedDedup ["alpha", "beta"] ∧ exBudgetsMissingBeta "beta" = none) ∧
    (computeConsolidationV1 ["alpha", "beta"] exBudgetsMissingBeta exEnrollments
        exAnchors exParams).ok = false :=
  ⟨by decide, ⟨by decide, rfl⟩,
    (missing_data_short_circuit ["alpha", "beta"] exBudgetsMissingBeta exEnrollments
        exAnchors exParams (by decide)
        ⟨"beta", by decide, Or.inl rfl⟩).2.1⟩

/-! ## Claim C2: hub selection -/

lemma foldl_hub_eq_firstMax (e : LeaEnrollmentMap) (l : List String) (hk : String) :
    l.foldl (fun st k => if st.2 < etotal e k then (k, etotal e k) else st)
      (hk, etotal e hk) =
      (firstMaxKey e hk l, etotal e (firstMaxKey e hk l)) := by
  induction l generalizing hk with
  | nil => rfl
  | cons k ks ih =>
    simp only [List.foldl_cons, firstMaxKey]
    by_cases h : etotal e hk < etotal e k
    · rw [if_pos (show ((hk : String), etotal e hk).2 < etotal e k from h), if_pos h]
      exact ih k
    · rw [if_neg (show ¬ ((hk : String), etotal e hk).2 < etotal e k from h), if_neg h]
      exact ih hk

lemma firstMaxKey_mem (e : LeaEnrollmentMap) (hk : String) (l : List String) :
    firstMaxKey e hk l ∈ hk :: l := by
  induction l generalizing hk with
  | nil => simp [firstMaxKey]
  | cons k ks ih =>
    rw [firstMaxKey]
    split
    · have := ih k
      simp only [List.mem_cons] at this ⊢
      tauto
    · have := ih hk
      simp only [List.mem_cons] at this ⊢
      tauto

lemma firstMaxKey_max (e : LeaEnrollmentMap) (hk : String) (l : List String) :
    ∀ k ∈ hk :: l, etotal e k ≤ etotal e (firstMaxKey e hk l) := by
  induction l generalizing hk with
  | nil =>
    intro k hkm
    simp only [List.mem_cons, List.not_mem_nil, or_false] at hkm
    subst hkm
    simp [firstMaxKey]
  | cons k' ks ih =>
    intro k hkm
    rw [firstMaxKey]
    split
    · rename_i h
      rcases List.mem_cons.mp hkm with heq | hkm2
      · subst heq
        exact le_trans h.le (ih k' k' (by simp))
      · exact ih k' k hkm2
    · rename_i h
      rcases List.mem_cons.mp hkm with heq | hkm2
      · subst heq
        exact ih k k (by simp)
      · rcases List.mem_cons.mp hkm2 with heq2 | hkm3
        · subst heq2
          exact le_trans (not_lt.mp h) (ih hk hk (by simp))
        · exact ih hk k (by simp [hkm3])

lemma firstMaxKey_first (e : LeaEnrollmentMap) (hk : String) (l : List String) :
    ∃ l1 l2, hk :: l = l1 ++ firstMaxKey e hk l :: l2 ∧
      ∀ k ∈ l1, etotal e k < etotal e (firstMaxKey e hk l) := by
  induction l generalizing hk with
  | nil => exact ⟨[], [], by simp [firstMaxKey], by simp⟩
  | cons k' ks ih =>
    rw [firstMaxKey]
    split
    · rename_i h
      obtain ⟨l1, l2, heq, hlt⟩ := ih k'
      refine ⟨hk :: l1, l2, by rw [List.cons_append, ← heq], ?_⟩
      intro k hkm
      rcases List.mem_cons.mp hkm with rfl | hkm2
      · exact lt_of_lt_of_le h (firstMaxKey_max e k' ks k' (by simp))
      · exact hlt k hkm2
    · rename_i h
      obtain ⟨l1, l2, heq, hlt⟩ := ih hk
      cases l1 with
      | nil =>
        simp only [List.nil_append] at heq
        injection heq with h1 h2
        exact ⟨[], k' :: ks, by simp [← h1], by simp⟩
      | cons y ys =>
        rw [List.cons_append] at heq
        injection heq with h1 h2
        refine ⟨hk :: k' :: ys, l2, ?_, ?_⟩
        · show hk :: k' :: ks = (hk :: k' :: ys) ++ firstMaxKey e hk ks :: l2
          conv_rhs => rw [List.cons_append, List.cons_append, ← h2]
        · intro k hkm
          have hhk : etotal e hk < etotal e (firstMaxKey e hk ks) := by
            apply hlt
            rw [h1]
            simp
          rcases List.mem_cons.mp hkm with rfl | hkm2
          · exact hhk
          · rcases List.mem_cons.mp hkm2 with rfl | hkm3
            · exact lt_of_le_of_lt (not_lt.mp h) hhk
            · exact hlt k (List.mem_cons_of_mem y hkm3)

lemma all_not_missing {e : LeaEnrollmentMap} {u : List String}
    (he : u.filter (fun k => enrollmentMissing e k) = []) :
    ∀ k ∈ u, enrollmentMissing e k = false := by
  intro k hk
  have := List.filter_eq_nil_iff.mp he k hk
  simpa using this

lemma hubKeyOf_eq_firstMax {e : LeaEnrollmentMap} {k0 : String} {rest : List String}
    (hpos : 0 < etotal e k0) :
    hubKeyOf e (k0 :: rest) = firstMaxKey e k0 rest := by
  unfold hubKeyOf
  simp only [List.headD_cons, List.foldl_cons]
  rw [if_pos (show ((k0 : String), (0 : ℝ)).2 < etotal e k0 from hpos)]
  rw [foldl_hub_eq_firstMax]

/-- C2: for every `ok: true` result, the returned `hubKey` is one of the
unique selected keys, its enrollment total is greatest among them, and on
ties the hub is the first maximal key in deduplicated selection order:
every key strictly before the hub in the deduplicated list has strictly
smaller enrollment total. -/
theorem hub_selection (keys : List String) (b : BudgetsMap) (e : LeaEnrollmentMap)
    (a : DistrictAnchorsMap) (p : ConsolidationParamsV1)
    (hok : (computeConsolidationV1 keys b e a p).ok = true) :
    (computeConsolidationV1 keys b e a p).hubKey ∈ orderedDedup keys ∧
    (∀ k ∈ orderedDedup keys,
      etotal e k ≤ etotal e (computeConsolidationV1 keys b e a p).hubKey) ∧
    (∃ l1 l2, orderedDedup keys =
        l1 ++ (computeConsolidationV1 keys b e a p).hubKey :: l2 ∧
      ∀ k ∈ l1, etotal e k < etotal e (computeConsolidationV1 keys b e a p).hubKey) := by
  unfold computeConsolidationV1 at hok ⊢
  obtain ⟨h1, hb, he, ha⟩ := computeCore_ok_elim hok
  rw [computeCore_eq_mainResult h1 hb he ha]
  simp only [mainResult]
  cases hu : orderedDedup keys with
  | nil => rw [hu] at h1; simp at h1
  | cons k0 rest =>
    have hpos : 0 < etotal e k0 :=
      etotal_pos_of_not_missing (all_not_missing he k0 (by rw [hu]; simp))
    rw [hubKeyOf_eq_firstMax hpos]
    exact ⟨firstMaxKey_mem e k0 rest, firstMaxKey_max e k0 rest,
      firstMaxKey_first e k0 rest⟩

/-- C2, witness: at the two-district example the hub is a selected key with
maximal enrollment. -/
theorem hub_selection_witness :
    (computeConsolidationV1 ["alpha", "beta"] exBudgets exEnrollments exAnchors
        exParams).ok = true ∧
    (computeConsolidationV1 ["alpha", "beta"] exBudgets exEnrollments exAnchors
        exParams).hubKey ∈ orderedDedup ["alpha", "beta"] ∧
    (∀ k ∈ orderedDedup ["alpha", "beta"],
      etotal exEnrollments k ≤ etotal exEnrollments
        (computeConsolidationV1 ["alpha", "beta"] exBudgets exEnrollments exAnchors
          exParams).hubKey) :=
  ⟨exOk, (hub_selection _ _ _ _ _ exOk).1, (hub_selection _ _ _ _ _ exOk).2.1⟩

/-! ## Claim C6: breakdown ordering -/

/-- C6: for every `ok: true` result the `spokeBreakdown` is sorted in
descending order of `cost`: every earlier entry's cost is ≥ every later
entry's cost. -/
theorem breakdown_sorted (keys : List String) (b : BudgetsMap) (e : LeaEnrollmentMap)
    (a : DistrictAnchorsMap) (p : ConsolidationParamsV1)
    (hok : (computeConsolidationV1 keys b e a p).ok = true) :
    List.Sorted (fun x y : SpokeDetail => y.cost ≤ x.cost)
      (computeConsolidationV1 keys b e a p).spokeBreakdown := by
  unfold computeConsolidationV1 at hok ⊢
  obtain ⟨h1, hb, he, ha⟩ := computeCore_ok_elim hok
  rw [computeCore_eq_mainResult h1 hb he ha]
  simp only [mainResult]
  haveI : IsTotal SpokeDetail (fun x y => y.cost ≤ x.cost) :=
    ⟨fun x y => le_total y.cost x.cost⟩
  haveI : IsTrans SpokeDetail (fun x y => y.cost ≤ x.cost) :=
    ⟨fun _ _ _ hab hbc => le_trans hbc hab⟩
  exact List.sorted_insertionSort _ _

/-- C6, witness. -/
theorem breakdown_sorted_witness :
    (computeConsolidationV1 ["alpha", "beta"] exBudgets exEnrollments exAnchors
        exParams).ok = true ∧
    List.Sorted (fun x y : SpokeDetail => y.cost ≤ x.cost)
      (computeConsolidationV1 ["alpha", "beta"] exBudgets exEnrollments exAnchors
        exParams).spokeBreakdown :=
  ⟨exOk, breakdown_sorted _ _ _ _ _ exOk⟩

/-! ## Claim C10: breakdown content and empty missing lists -/

lemma orderedDedup_aux_nodup : ∀ (xs acc : List String), acc.Nodup →
    (xs.foldl (fun acc k => if k ∈ acc then acc else acc ++ [k]) acc).Nodup := by
  intro xs
  induction xs with
  | nil => intro acc h; exact h
  | cons x xs ih =>
    intro acc h
    simp only [List.foldl_cons]
    by_cases hx : x ∈ acc
    · rw [if_pos hx]
      exact ih acc h
    · rw [if_neg hx]
      apply ih
      simp [List.nodup_append, h, hx]

lemma orderedDedup_nodup (xs : List String) : (orderedDedup xs).Nodup :=
  orderedDedup_aux_nodup xs [] (by simp)

lemma hubKeyOf_mem {e : LeaEnrollmentMap} {u : List String}
    (hne : u ≠ []) (hpos : ∀ k ∈ u, enrollmentMissing e k = false) :
    hubKeyOf e u ∈ u := by
  cases u with
  | nil => exact absurd rfl hne
  | cons k0 rest =>
    rw [hubKeyOf_eq_firstMax (etotal_pos_of_not_missing (hpos k0 (by simp)))]
    exact firstMaxKey_mem e k0 rest

lemma length_filter_ne {u : List String} {h : String} (hnd : u.Nodup) (hmem : h ∈ u) :
    (u.filter (fun k => k ≠ h)).length = u.length - 1 := by
  induction u with
  | nil => simp at hmem
  | cons x xs ih =>
    rcases List.mem_cons.mp hmem with heq | hmem2
    · subst heq
      rw [List.filter_cons_of_neg (by simp)]
      have hnot : h ∉ xs := (List.nodup_cons.mp hnd).1
      rw [List.filter_eq_self.mpr ?_]
      · simp
      · intro c hc
        simp only [ne_eq, decide_eq_true_eq]
        intro heq2
        exact hnot (heq2 ▸ hc)
    · have hx : x ≠ h := by
        intro heq
        subst heq
        exact (List.nodup_cons.mp hnd).1 hmem2
      rw [List.filter_cons_of_pos (by simp [hx])]
      rw [List.length_cons, ih (List.nodup_cons.mp hnd).2 hmem2]
      have hlen : 1 ≤ xs.length := List.length_pos.mpr (List.ne_nil_of_mem hmem2)
      simp only [List.length_cons]
      omega

/-- C10: for every `ok: true` result, the three missing lists are empty, the
breakdown has one entry per unique selected key other than the hub (its
length is the number of unique keys minus one, and its keys are a
permutation of the non-hub unique keys), and each entry carries its spoke's
key and enrollment total. -/
theorem breakdown_content (keys : List String) (b : BudgetsMap) (e : LeaEnrollmentMap)
    (a : DistrictAnchorsMap) (p : ConsolidationParamsV1)
    (hok : (computeConsolidationV1 keys b e a p).ok = true) :
    (computeConsolidationV1 keys b e a p).missing =
      { budgets := [], enrollment := [], anchors := [] } ∧
    (computeConsolidationV1 keys b e a p).spokeBreakdown.length =
      (orderedDedup keys).length - 1 ∧
    ((computeConsolidationV1 keys b e a p).spokeBreakdown.map SpokeDetail.key).Perm
      ((orderedDedup keys).filter
        (fun k => k ≠ (computeConsolidationV1 keys b e a p).hubKey)) ∧
    (∀ d ∈ (computeConsolidationV1 keys b e a p).spokeBreakdown,
      d.key ∈ orderedDedup keys ∧
      d.key ≠ (computeConsolidationV1 keys b e a p).hubKey ∧
      d.enrollment = etotal e d.key) := by
  unfold computeConsolidationV1 at hok ⊢
  obtain ⟨h1, hb, he, ha⟩ := computeCore_ok_elim hok
  rw [computeCore_eq_mainResult h1 hb he ha]
  simp only [mainResult]
  have hmem : hubKeyOf e (orderedDedup keys) ∈ orderedDedup keys :=
    hubKeyOf_mem (by intro h0; rw [h0] at h1; simp at h1) (all_not_missing he)
  refine ⟨by trivial, ?_, ?_, ?_⟩
  · rw [List.length_insertionSort, List.length_map]
    exact length_filter_ne (orderedDedup_nodup keys) hmem
  · have hperm := (List.perm_insertionSort (fun x y : SpokeDetail => y.cost ≤ x.cost)
      (((orderedDedup keys).filter (fun k => k ≠ hubKeyOf e (orderedDedup keys))).map
        (spokeDetail a e (hubKeyOf e (orderedDedup keys)) (clamp p.affectedShare 0 1)
          (max 0 p.costPerStudentMile)))).map SpokeDetail.key
    rw [List.map_map] at hperm
    have hmap : ((orderedDedup keys).filter
        (fun k => k ≠ hubKeyOf e (orderedDedup keys))).map
        (SpokeDetail.key ∘ spokeDetail a e (hubKeyOf e (orderedDedup keys))
          (clamp p.affectedShare 0 1) (max 0 p.costPerStudentMile)) =
        (orderedDedup keys).filter (fun k => k ≠ hubKeyOf e (orderedDedup keys)) := by
      conv_rhs => rw [← List.map_id ((orderedDedup keys).filter
        (fun k => k ≠ hubKeyOf e (orderedDedup keys)))]
      apply List.map_congr_left
      intro k _
      rfl
    rw [hmap] at hperm
    exact hperm
  · intro d hd
    rw [List.mem_insertionSort] at hd
    rcases List.mem_map.mp hd with ⟨k, hkmem, rfl⟩
    rw [List.mem_filter] at hkmem
    obtain ⟨hku, hkne⟩ := hkmem
    exact ⟨hku, by simpa using hkne, rfl⟩

/-- C10, witness. -/
theorem breakdown_content_witness :
    (computeConsolidationV1 ["alpha", "beta"] exBudgets exEnrollments exAnchors
        exParams).ok = true ∧
    (computeConsolidationV1 ["alpha", "beta"] exBudgets exEnrollments exAnchors
        exParams).missing = { budgets := [], enrollment := [], anchors := [] } ∧
    (computeConsolidationV1 ["alpha", "beta"] exBudgets exEnrollments exAnchors
        exParams).spokeBreakdown.length = (orderedDedup ["alpha", "beta"]).length - 1 :=
  ⟨exOk, (breakdown_content _ _ _ _ _ exOk).1, (breakdown_content _ _ _ _ _ exOk).2.1⟩

end RISchool
